import Mathlib

/-!
Shallow embedding of the record-merge / enrichment / ledger core of the
`center_court` repository, together with theorems settling the frozen claims.

The embedding mirrors:
  * `src/scrape_wiki_wta.py`   — `enrich_csv` (per-field decision policy,
    change ledger production, reject carry-over);
  * `src/add_ioc_to_player.py` — `enrich_country_codes`;
  * `src/revert_overwrites.py` — `revert_overwrites`;
  * `src/rankings_to_player_base.py` — `load_players`, `find_new_ids`,
    `update_last_appearances`.

Conventions of the embedding:
  * CSV cells are Lean `String`s (the scripts read the relevant tables with
    `keep_default_na=False` or `dtype=str`, so cells are Python strings and
    the empty string is the "unknown" marker); a cell that pandas represents
    as NaN/None is modelled as `Option String` where the script can actually
    observe missingness (`pd.notna`).
  * Dates (`first_appearance`, ranking observation dates) are modelled as
    `Int` time stamps; a pandas `NaT` is `none`.  The pandas rule that any
    comparison against `NaT` is `False` is made explicit at each comparison.
  * `pd.to_numeric(column, errors="coerce")` is modelled by giving the raw
    column the type `Option Int`: `some n` for a numerically coercible cell,
    `none` for an uncoercible one.
-/

namespace CenterCourt

/-! ### Enrichment Engine — `enrich_csv` in `src/scrape_wiki_wta.py` -/

/-- The five target columns of `enrich_csv` (`target_cols`, line 225). -/
inductive Col where
  | height_inches
  | height_cm
  | plays
  | birth_date
  | birthplace
deriving DecidableEq, Repr

/-- The CSV column-name string of a target column. -/
def colName : Col → String
  | .height_inches => "height_inches"
  | .height_cm     => "height_cm"
  | .plays         => "plays"
  | .birth_date    => "birth_date"
  | .birthplace    => "birthplace"

/-- The values of the five target columns of one player row. -/
structure Fields where
  height_inches : String
  height_cm     : String
  plays         : String
  birth_date    : String
  birthplace    : String
deriving DecidableEq, Repr

def Fields.get (f : Fields) : Col → String
  | .height_inches => f.height_inches
  | .height_cm     => f.height_cm
  | .plays         => f.plays
  | .birth_date    => f.birth_date
  | .birthplace    => f.birthplace

def Fields.set (f : Fields) : Col → String → Fields
  | .height_inches, v => { f with height_inches := v }
  | .height_cm,     v => { f with height_cm := v }
  | .plays,         v => { f with plays := v }
  | .birth_date,    v => { f with birth_date := v }
  | .birthplace,    v => { f with birthplace := v }

/-- `target_cols = ['height_inches','height_cm','plays','birth_date','birthplace']`
in the iteration order of the `new_data` dict (line 257). -/
def targetCols : List Col :=
  [.height_inches, .height_cm, .plays, .birth_date, .birthplace]

/-- One row of the master player table, restricted to what `enrich_csv` reads:
`player_id` (already coerced to int, line 204), `full_name` (drives the
scrape URL), `first_appearance` (parsed date, `none` = `NaT`), and the five
target columns. -/
structure PlayerRow where
  player_id : Int
  full_name : String
  first_appearance : Option Int
  vals : Fields
deriving DecidableEq, Repr

/-- A Change Record as appended to `changes` (lines 291-298). -/
structure Change where
  player_id   : Int
  player_name : String
  column      : String
  row_index   : Nat
  old_value   : String
  new_value   : String
deriving DecidableEq, Repr

/-- One row of the persisted Change Ledger CSV.  `player_id` is the result
of `pd.to_numeric(..., errors='coerce')` on the cell (lines 189-193):
`none` when absent or uncoercible. -/
structure LedgerRow where
  player_id   : Option Int
  player_name : String
  column      : String
  row_index   : Nat
  old_value   : String
  new_value   : String
  reject      : String
deriving DecidableEq, Repr

/-- Python's `str.strip()` (used as `old['reject'].str.strip()`, line 187):
remove leading and trailing whitespace.  Defined over the character list so
that it evaluates by kernel reduction. -/
def pyStrip (s : String) : String :=
  ⟨(((s.data.dropWhile Char.isWhitespace).reverse).dropWhile Char.isWhitespace).reverse⟩

/-- `prev_rejects`: the `(player_id, column)` pairs of ledger rows whose
`reject` strips to `"1"` and whose `player_id` is coercible
(lines 186-195). -/
def prevRejects (led : List LedgerRow) : List (Int × String) :=
  led.filterMap fun r =>
    if pyStrip r.reject = "1" then r.player_id.map fun pid => (pid, r.column)
    else none

/-- The `prev_rejects` set derived from the ledger file state:
the file may be absent (line 178), in which case the set is empty. -/
def ledgerRejects : Option (List LedgerRow) → List (Int × String)
  | none => []
  | some led => prevRejects led

/-- The per-field decision of `enrich_csv` (lines 273-299), threaded through
the state `(current fields, changes so far)`.  The four `continue` branches
are, in order: previously rejected pair, blank-over-non-blank, equal value,
and the overwrite gate. -/
def fieldStep (pr : List (Int × String)) (pid : Int) (name : String) (idx : Nat)
    (cand : Fields) (allowOver : Bool) (st : Fields × List Change) (col : Col) :
    Fields × List Change :=
  let oldv := st.1.get col
  let newv := cand.get col
  if (pid, colName col) ∈ pr then st
  else if newv = "" ∧ oldv ≠ "" then st
  else if newv = oldv then st
  else if oldv ≠ "" ∧ allowOver = false then st
  else (st.1.set col newv,
        st.2 ++ [{ player_id := pid, player_name := name, column := colName col,
                   row_index := idx, old_value := oldv, new_value := newv }])

/-- The record appended by an accepting `fieldStep`. -/
def fieldRec (pid : Int) (name : String) (idx : Nat) (col : Col)
    (oldv newv : String) : Change :=
  { player_id := pid, player_name := name, column := colName col,
    row_index := idx, old_value := oldv, new_value := newv }

/-- The acceptance condition of `fieldStep` (the negation of all four skip
branches). -/
def accepts (pr : List (Int × String)) (pid : Int) (allowOver : Bool)
    (oldv newv : String) (cname : String) : Prop :=
  (pid, cname) ∉ pr ∧ ¬(newv = "" ∧ oldv ≠ "") ∧ newv ≠ oldv ∧
    ¬(oldv ≠ "" ∧ allowOver = false)

instance (pr : List (Int × String)) (pid : Int) (ao : Bool)
    (oldv newv cname : String) : Decidable (accepts pr pid ao oldv newv cname) := by
  unfold accepts; infer_instance

/-- Rule 0 (line 241): `all(row[c] for c in target_cols)`. -/
def allFilled (f : Fields) : Bool :=
  targetCols.all fun c => f.get c ≠ ""

/-- `allow_over = overwrite and (not min_first_date or row['first_appearance'] > min_first_dt)`
(lines 268-270).  A `NaT` `first_appearance` compares `False` against any
date, as in pandas. -/
def allowOverwrite (overwrite : Bool) (minFirst : Option Int)
    (firstApp : Option Int) : Bool :=
  overwrite && (match minFirst with
    | none => true
    | some m => match firstApp with
      | none => false
      | some d => decide (m < d))

/-- Processing of one active player row (lines 234-304): rule-0 skip, the
scrape (whose outcome — `none` on a caught fetch failure — is the `cand?`
parameter), then the per-field loop over `new_data.items()`. -/
def processRow (pr : List (Int × String)) (overwrite : Bool) (minFirst : Option Int)
    (idx : Nat) (cand? : Option Fields) (row : PlayerRow) : PlayerRow × List Change :=
  if allFilled row.vals then (row, [])
  else match cand? with
    | none => (row, [])
    | some cand =>
      let ao := allowOverwrite overwrite minFirst row.first_appearance
      let res := targetCols.foldl
        (fieldStep pr row.player_id row.full_name idx cand ao) (row.vals, [])
      ({ row with vals := res.1 }, res.2)

/-- One enrichment pass over the table: the outer loop of `enrich_csv` over
the processed indices (`active_idxs[start_index:end_index]`, distinct by
construction), accumulating the mutated table and the `changes` list.
Candidate values are a function of the player's `full_name` (the scrape URL
is built from the name, line 248). -/
def enrichRun (pr : List (Int × String)) (overwrite : Bool) (minFirst : Option Int)
    (procIdxs : List Nat) (cands : String → Option Fields)
    (rows : List PlayerRow) : List PlayerRow × List Change :=
  procIdxs.foldl
    (fun st idx =>
      match st.1[idx]? with
      | none => st
      | some row =>
        let res := processRow pr overwrite minFirst idx (cands row.full_name) row
        (st.1.set idx res.1, st.2 ++ res.2))
    (rows, [])

/-- The table component of `enrichRun` (the `changes` accumulator does not
influence it). -/
def enrichRows (pr : List (Int × String)) (ow : Bool) (mf : Option Int)
    (procIdxs : List Nat) (cands : String → Option Fields)
    (rows : List PlayerRow) : List PlayerRow :=
  procIdxs.foldl
    (fun rs idx =>
      match rs[idx]? with
      | none => rs
      | some row => rs.set idx (processRow pr ow mf idx (cands row.full_name) row).1)
    rows

/-- The reject stamping of one summary row (lines 313-319): `reject` is
initialised to `''` and re-set to `'1'` exactly when the row's
`(player_id, column)` pair is in `prev_rejects`. -/
def stampReject (pr : List (Int × String)) (c : Change) : LedgerRow :=
  { player_id := some c.player_id, player_name := c.player_name,
    column := c.column, row_index := c.row_index,
    old_value := c.old_value, new_value := c.new_value,
    reject := if (c.player_id, c.column) ∈ pr then "1" else "" }

/-- The fresh ledger built from this run's `changes` (lines 310-319). -/
def mkLedger (pr : List (Int × String)) (changes : List Change) : List LedgerRow :=
  changes.map (stampReject pr)

/-- One full `enrich_csv` run as a transformation of the persistent state
`(player table, ledger file)`: read `prev_rejects` from the ledger file if
present, run the enrichment pass, then write the new ledger — only when at
least one change was recorded (lines 310-324); otherwise the previous
ledger file is left untouched. -/
def enrichStep (overwrite : Bool) (minFirst : Option Int) (procIdxs : List Nat)
    (cands : String → Option Fields)
    (st : List PlayerRow × Option (List LedgerRow)) :
    List PlayerRow × Option (List LedgerRow) :=
  let pr := ledgerRejects st.2
  let res := enrichRun pr overwrite minFirst procIdxs cands st.1
  (res.1, if res.2 = [] then st.2 else some (mkLedger pr res.2))

/-! ### Country-code enrichment — `enrich_country_codes` in `src/add_ioc_to_player.py` -/

/-- One row as read by `enrich_country_codes`: `player_id` as a string
(`Int64` read then `astype(str)`, so a missing id is the literal `"<NA>"`),
and `represented_country` read with `dtype=str` (`none` = NaN cell). -/
structure CRow where
  player_id : String
  full_name : String
  represented_country : Option String
deriving DecidableEq, Repr

/-- Python's `str.upper()` restricted to what the scripts compare it with,
defined over the character list so that it evaluates by kernel reduction. -/
def pyUpper (s : String) : String :=
  ⟨s.data.map Char.toUpper⟩

/-- The per-row decision of `enrich_country_codes` (lines 70-106): keep the
current value when it is present, non-blank and `overwrite` is off;
otherwise append `None` for a missing `player_id`, else the scraped code
(`none` models `code is None` after both lookup stages failed). -/
def countryCell (overwrite : Bool) (scr : Option String) (pid : String)
    (current : Option String) : Option String :=
  if (pyStrip (current.getD "") ≠ "" ∧ overwrite = false) then current
  else if (pid = "" ∨ pyUpper pid = "<NA>") then none
  else scr

/-- The whole `enrich_country_codes` pass with the default full index range:
the collected `codes` list is assigned back over the processed rows
(line 109), a `None` entry leaving an empty cell. -/
def countryRun (overwrite : Bool) (scr : String → String → Option String)
    (rows : List CRow) : List CRow :=
  rows.map fun r =>
    { r with represented_country :=
        (countryCell overwrite (scr r.player_id r.full_name)
          r.player_id r.represented_country) }

/-! ### Revert Tool — `revert_overwrites` in `src/revert_overwrites.py` -/

/-- The enriched table is loaded with `dtype=str` (line 25); one row is an
association list from column name to cell string. -/
abbrev TRow := List (String × String)

/-- One row of the summary (ledger) CSV as the Revert Tool reads it. -/
structure SummaryRow where
  row_index : Nat
  column    : String
  old_value : String
  new_value : String
  reject    : String
deriving DecidableEq, Repr

/-- `df.at[idx, col] = old` on one row: replace the cell of column `col`. -/
def setCellRow (row : TRow) (col : String) (v : String) : TRow :=
  row.map fun p => if p.1 = col then (p.1, v) else p

/-- One iteration of the revert loop (lines 28-33).  `df.at[idx, col]` with
an out-of-range row label or a missing column raises `KeyError` (already at
the read in the log line), aborting the run before anything is written:
modelled as `none`. -/
def applyRevert (t : List TRow) (r : SummaryRow) : Option (List TRow) :=
  match t[r.row_index]? with
  | none => none
  | some row =>
    match row.lookup r.column with
    | none => none
    | some _ => some (t.set r.row_index (setCellRow row r.column r.old_value))

/-- Outcome of a Revert Tool invocation: early return with a message and no
write when nothing is flagged (lines 21-23), `KeyError` abort, or the
corrected table written to the output path (line 36). -/
inductive RevertResult where
  | noFlagged
  | keyError
  | written (t : List TRow)
deriving DecidableEq, Repr

/-- `revert_overwrites(summary_csv, enriched_csv, output_csv)` (lines 5-37):
select the `reject == '1'` rows, stop if there are none, else apply each
revert in ledger order and write the result. -/
def revert_overwrites (summary : List SummaryRow) (table : List TRow) :
    RevertResult :=
  let toRevert := summary.filter fun r => r.reject = "1"
  if toRevert.isEmpty then .noFlagged
  else match toRevert.foldlM applyRevert table with
    | none => .keyError
    | some t => .written t

/-- The string content of the table cell at `(row_index, column)`
(`none` when the row or the column is absent). -/
def cellGet (t : List TRow) (i : Nat) (c : String) : Option String :=
  match t[i]? with
  | none => none
  | some row => row.lookup c

/-! ### Player Store — `src/rankings_to_player_base.py` -/

/-- One raw row of the player CSV as far as `load_players` is concerned:
the `player_id` cell after `pd.to_numeric(..., errors='coerce')`
(`none` = uncoercible), plus the rest of the row. -/
structure RawPlayerRow where
  player_id : Option Int
  full_name : String
deriving DecidableEq, Repr

/-- `load_players` (lines 6-19).  The statement
`df['player_id'] = pd.to_numeric(df['player_id'], errors='coerce').dropna().astype(int)`
is modelled operationally: the coerced column is an index-keyed series,
`dropna` removes the uncoercible entries from the *series*, and the
assignment back into the frame realigns by index — a row whose index was
dropped from the series receives a missing value, and every row of the
frame is kept. -/
def load_players (rows : List RawPlayerRow) : List RawPlayerRow :=
  let series : List (Nat × Int) :=
    rows.enum.filterMap fun p => p.2.player_id.map fun n => (p.1, n)
  rows.enum.map fun p => { p.2 with player_id := series.lookup p.1 }

/-- One ranking observation (the columns `find_new_ids` and
`update_last_appearances` use). -/
structure RankObs where
  player_id : Int
  date : Int
deriving DecidableEq, Repr

/-- `find_new_ids` (lines 36-42): set difference of the `player_id` column
values of the rankings minus those of the existing store. -/
def find_new_ids (existing rankings : List Int) : Finset Int :=
  rankings.toFinset \ existing.toFinset

/-- One row of the player table as `update_last_appearances` sees it:
`last_appearance` after `pd.to_datetime(..., errors='coerce')`
(`none` = `NaT`). -/
structure PRow where
  player_id : Int
  last_appearance : Option Int
deriving DecidableEq, Repr

/-- `ranks_df.groupby('player_id')['date'].max()` looked up for one player
(`none` when the player has no observation, i.e. the left merge leaves
`new_last` as `NaT`). -/
def latestDate (ranks : List RankObs) (pid : Int) : Option Int :=
  ((ranks.filter fun o => o.player_id = pid).map (fun o => o.date)).max?

/-- `update_last_appearances` (lines 66-92): replace `last_appearance` by
`new_last` exactly where `new_last` is not `NaT` and strictly exceeds the
current value (a `NaT` current value compares `False`, hence is never
replaced). -/
def update_last_appearances (players : List PRow) (ranks : List RankObs) :
    List PRow :=
  players.map fun p =>
    match latestDate ranks p.player_id with
    | none => p
    | some d =>
      if (match p.last_appearance with
          | none => false
          | some c => decide (c < d)) = true
      then { p with last_appearance := some d }
      else p

/-- `result.last_appearance >= input.last_appearance` with pandas `NaT`
ordered below everything (a `NaT` input is never decreased since it is
never changed). -/
def optLe (a b : Option Int) : Bool :=
  match a with
  | none => true
  | some x => match b with
    | none => false
    | some y => decide (x ≤ y)

/-! ### Helper lemmas on the per-field fold of the Enrichment Engine -/

theorem Fields.get_set_self (f : Fields) (c : Col) (v : String) :
    (f.set c v).get c = v := by
  cases c <;> rfl

theorem Fields.get_set_ne (f : Fields) (c c' : Col) (v : String) (h : c ≠ c') :
    (f.set c v).get c' = f.get c' := by
  cases c <;> cases c' <;> first | exact absurd rfl h | rfl

theorem colName_inj {c c' : Col} (h : colName c = colName c') : c = c' := by
  cases c <;> cases c' <;> first | rfl | (exact absurd h (by decide))

theorem targetCols_nodup : targetCols.Nodup := by decide

theorem mem_targetCols (c : Col) : c ∈ targetCols := by cases c <;> decide

theorem fieldStep_eq (pr : List (Int × String)) (pid : Int) (name : String)
    (idx : Nat) (cand : Fields) (ao : Bool) (st : Fields × List Change) (col : Col) :
    fieldStep pr pid name idx cand ao st col =
      if accepts pr pid ao (st.1.get col) (cand.get col) (colName col)
      then (st.1.set col (cand.get col),
            st.2 ++ [fieldRec pid name idx col (st.1.get col) (cand.get col)])
      else st := by
  unfold fieldStep accepts fieldRec
  dsimp only
  split_ifs <;> first | rfl | tauto

section FoldLemmas

variable (pr : List (Int × String)) (pid : Int) (name : String) (idx : Nat)
  (cand : Fields) (ao : Bool)

theorem fieldStep_fst_get_ne (st : Fields × List Change) (c col : Col) (h : c ≠ col) :
    (fieldStep pr pid name idx cand ao st c).1.get col = st.1.get col := by
  rw [fieldStep_eq]
  split_ifs
  · exact Fields.get_set_ne _ _ _ _ h
  · rfl

theorem foldl_fieldStep_get_not_mem (cols : List Col) (col : Col) (h : col ∉ cols) :
    ∀ st : Fields × List Change,
      (cols.foldl (fieldStep pr pid name idx cand ao) st).1.get col = st.1.get col := by
  induction cols with
  | nil => intro st; rfl
  | cons c cs ih =>
    intro st
    rw [List.foldl_cons]
    rw [ih (fun hm => h (List.mem_cons_of_mem _ hm))]
    exact fieldStep_fst_get_ne pr pid name idx cand ao st c col
      (by rintro rfl; exact h (List.mem_cons_self _ _))

theorem fieldStep_snd_filter_ne (st : Fields × List Change) (c col : Col) (h : c ≠ col) :
    (fieldStep pr pid name idx cand ao st c).2.filter
        (fun ch => decide (ch.column = colName col)) =
      st.2.filter (fun ch => decide (ch.column = colName col)) := by
  rw [fieldStep_eq]
  split_ifs
  · have hne : ¬(colName c = colName col) := fun e => h (colName_inj e)
    simp [fieldRec, List.filter_append, hne]
  · rfl

theorem foldl_fieldStep_filter_not_mem (cols : List Col) (col : Col) (h : col ∉ cols) :
    ∀ st : Fields × List Change,
      (cols.foldl (fieldStep pr pid name idx cand ao) st).2.filter
          (fun ch => decide (ch.column = colName col)) =
        st.2.filter (fun ch => decide (ch.column = colName col)) := by
  induction cols with
  | nil => intro st; rfl
  | cons c cs ih =>
    intro st
    rw [List.foldl_cons]
    rw [ih (fun hm => h (List.mem_cons_of_mem _ hm))]
    exact fieldStep_snd_filter_ne pr pid name idx cand ao st c col
      (by rintro rfl; exact h (List.mem_cons_self _ _))

theorem foldl_fieldStep_get_mem (cols : List Col) (col : Col) :
    cols.Nodup → col ∈ cols → ∀ st : Fields × List Change,
      (cols.foldl (fieldStep pr pid name idx cand ao) st).1.get col =
        if accepts pr pid ao (st.1.get col) (cand.get col) (colName col)
        then cand.get col else st.1.get col := by
  induction cols with
  | nil => intro _ hm; cases hm
  | cons c cs ih =>
    intro hnd hm st
    rw [List.foldl_cons]
    rcases List.mem_cons.mp hm with rfl | hmem
    · rw [foldl_fieldStep_get_not_mem pr pid name idx cand ao cs col
        (List.nodup_cons.mp hnd).1]
      rw [fieldStep_eq]
      split_ifs
      · exact Fields.get_set_self _ _ _
      · rfl
    · have hc : c ≠ col := by
        rintro rfl; exact (List.nodup_cons.mp hnd).1 hmem
      rw [ih (List.nodup_cons.mp hnd).2 hmem]
      rw [fieldStep_fst_get_ne pr pid name idx cand ao st c col hc]

theorem foldl_fieldStep_filter_mem (cols : List Col) (col : Col) :
    cols.Nodup → col ∈ cols → ∀ st : Fields × List Change,
      (cols.foldl (fieldStep pr pid name idx cand ao) st).2.filter
          (fun ch => decide (ch.column = colName col)) =
        st.2.filter (fun ch => decide (ch.column = colName col)) ++
          (if accepts pr pid ao (st.1.get col) (cand.get col) (colName col)
           then [fieldRec pid name idx col (st.1.get col) (cand.get col)] else []) := by
  induction cols with
  | nil => intro _ hm; cases hm
  | cons c cs ih =>
    intro hnd hm st
    rw [List.foldl_cons]
    rcases List.mem_cons.mp hm with rfl | hmem
    · rw [foldl_fieldStep_filter_not_mem pr pid name idx cand ao cs col
        (List.nodup_cons.mp hnd).1]
      rw [fieldStep_eq]
      split_ifs
      · simp [fieldRec, List.filter_append]
      · simp
    · have hc : c ≠ col := by
        rintro rfl; exact (List.nodup_cons.mp hnd).1 hmem
      rw [ih (List.nodup_cons.mp hnd).2 hmem]
      rw [fieldStep_snd_filter_ne pr pid name idx cand ao st c col hc]
      rw [fieldStep_fst_get_ne pr pid name idx cand ao st c col hc]

theorem foldl_fieldStep_skip (cols : List Col) :
    ∀ st : Fields × List Change,
      (∀ c ∈ cols, ¬ accepts pr pid ao (st.1.get c) (cand.get c) (colName c)) →
      cols.foldl (fieldStep pr pid name idx cand ao) st = st := by
  induction cols with
  | nil => intro st _; rfl
  | cons c cs ih =>
    intro st h
    rw [List.foldl_cons]
    have hstep : fieldStep pr pid name idx cand ao st c = st := by
      rw [fieldStep_eq]
      rw [if_neg (h c (List.mem_cons_self _ _))]
    rw [hstep]
    exact ih st (fun c' hc' => h c' (List.mem_cons_of_mem _ hc'))

theorem fieldStep_get_nonempty (st : Fields × List Change) (c col : Col)
    (h : st.1.get col ≠ "") :
    (fieldStep pr pid name idx cand ao st c).1.get col ≠ "" := by
  rw [fieldStep_eq]
  split_ifs with ha
  · by_cases hc : c = col
    · subst hc
      rw [Fields.get_set_self]
      intro he
      exact ha.2.1 ⟨he, h⟩
    · rw [Fields.get_set_ne _ _ _ _ hc]; exact h
  · exact h

theorem foldl_fieldStep_get_nonempty (cols : List Col) :
    ∀ (st : Fields × List Change) (col : Col), st.1.get col ≠ "" →
      (cols.foldl (fieldStep pr pid name idx cand ao) st).1.get col ≠ "" := by
  induction cols with
  | nil => intro st col h; exact h
  | cons c cs ih =>
    intro st col h
    rw [List.foldl_cons]
    exact ih _ col (fieldStep_get_nonempty pr pid name idx cand ao st c col h)

end FoldLemmas

/-! ### Helper lemmas on `processRow` -/

theorem processRow_fst_id (pr : List (Int × String)) (ow : Bool) (mf : Option Int)
    (idx : Nat) (cand? : Option Fields) (row : PlayerRow) :
    (processRow pr ow mf idx cand? row).1.player_id = row.player_id ∧
    (processRow pr ow mf idx cand? row).1.full_name = row.full_name ∧
    (processRow pr ow mf idx cand? row).1.first_appearance = row.first_appearance := by
  unfold processRow
  split_ifs
  · exact ⟨rfl, rfl, rfl⟩
  · cases cand? <;> exact ⟨rfl, rfl, rfl⟩

theorem processRow_get_nonempty (pr : List (Int × String)) (ow : Bool)
    (mf : Option Int) (idx : Nat) (cand? : Option Fields) (row : PlayerRow)
    (col : Col) (h : row.vals.get col ≠ "") :
    (processRow pr ow mf idx cand? row).1.vals.get col ≠ "" := by
  unfold processRow
  split_ifs
  · exact h
  · cases cand? with
    | none => exact h
    | some cand =>
      dsimp only
      exact foldl_fieldStep_get_nonempty pr row.player_id row.full_name idx cand
        (allowOverwrite ow mf row.first_appearance) targetCols (row.vals, []) col h

/-- Structure-eta helper. -/
theorem playerRow_eta (r : PlayerRow) : ({ r with vals := r.vals } : PlayerRow) = r :=
  rfl

/-- With no previously rejected pairs, applying `processRow` a second time to
its own output (with the same candidates) changes nothing and records no
changes: every field either was accepted (and now equal-skips) or was
skipped for a reason that still holds. -/
theorem processRow_idem (ow : Bool) (mf : Option Int) (idx : Nat)
    (cand? : Option Fields) (row : PlayerRow) :
    processRow [] ow mf idx cand? ((processRow [] ow mf idx cand? row).1) =
      ((processRow [] ow mf idx cand? row).1, []) := by
  by_cases h0 : allFilled row.vals
  · have h1 : processRow [] ow mf idx cand? row = (row, []) := by
      unfold processRow; rw [if_pos h0]
    rw [h1]
    unfold processRow; rw [if_pos h0]
  · cases cand? with
    | none =>
      have h1 : processRow [] ow mf idx none row = (row, []) := by
        unfold processRow; rw [if_neg h0]
      rw [h1]
      unfold processRow; rw [if_neg h0]
    | some cand =>
      set pid := row.player_id with hpid
      set nm := row.full_name with hnm
      set ao := allowOverwrite ow mf row.first_appearance with hao
      have h1 : (processRow [] ow mf idx (some cand) row).1 =
          { row with vals :=
              (targetCols.foldl (fieldStep [] pid nm idx cand ao) (row.vals, [])).1 } := by
        unfold processRow; rw [if_neg h0]
      rw [h1]
      set F1 := (targetCols.foldl (fieldStep [] pid nm idx cand ao) (row.vals, [])).1
        with hF1
      by_cases hf : allFilled F1
      · unfold processRow
        rw [if_pos hf]
      · unfold processRow
        rw [if_neg hf]
        dsimp only
        have hskip : ∀ c ∈ targetCols,
            ¬ accepts [] pid ao (F1.get c) (cand.get c) (colName c) := by
          intro c hc
          have hget := foldl_fieldStep_get_mem [] pid nm idx cand ao targetCols c
            targetCols_nodup hc (row.vals, [])
          rw [← hF1] at hget
          by_cases hacc : accepts [] pid ao (row.vals.get c) (cand.get c) (colName c)
          · rw [if_pos hacc] at hget
            intro hacc2
            exact hacc2.2.2.1 hget.symm
          · rw [if_neg hacc] at hget
            rw [hget]
            exact hacc
        rw [foldl_fieldStep_skip [] pid nm idx cand ao targetCols (F1, []) hskip]

/-! ### Run-level lemmas -/

theorem enrichRun_fst (pr : List (Int × String)) (ow : Bool) (mf : Option Int)
    (procIdxs : List Nat) (cands : String → Option Fields) (rows : List PlayerRow) :
    (enrichRun pr ow mf procIdxs cands rows).1 =
      enrichRows pr ow mf procIdxs cands rows := by
  suffices h : ∀ (idxs : List Nat) (rs : List PlayerRow) (acc : List Change),
      (idxs.foldl
        (fun st idx =>
          match st.1[idx]? with
          | none => st
          | some row =>
            let res := processRow pr ow mf idx (cands row.full_name) row
            (st.1.set idx res.1, st.2 ++ res.2))
        (rs, acc)).1 = enrichRows pr ow mf idxs cands rs by
    exact h procIdxs rows []
  intro idxs
  induction idxs with
  | nil => intro rs acc; rfl
  | cons i is ih =>
    intro rs acc
    rw [List.foldl_cons]
    unfold enrichRows
    rw [List.foldl_cons]
    cases hrs : rs[i]? with
    | none =>
      simp only [hrs]
      exact ih rs acc
    | some row =>
      simp only [hrs]
      exact ih _ _

theorem set_self_of_getElem? {α : Type} (l : List α) (i : Nat) (a : α)
    (h : l[i]? = some a) : l.set i a = l := by
  induction l generalizing i with
  | nil => simp at h
  | cons x xs ih =>
    cases i with
    | zero =>
      simp only [List.getElem?_cons_zero, Option.some.injEq] at h
      rw [← h]
      rfl
    | succ n =>
      simp only [List.getElem?_cons_succ] at h
      simp only [List.set_cons_succ]
      rw [ih n h]

theorem enrichRows_cons (pr : List (Int × String)) (ow : Bool) (mf : Option Int)
    (cands : String → Option Fields) (j : Nat) (js : List Nat)
    (rows : List PlayerRow) :
    enrichRows pr ow mf (j :: js) cands rows =
      enrichRows pr ow mf js cands
        (match rows[j]? with
         | none => rows
         | some row => rows.set j (processRow pr ow mf j (cands row.full_name) row).1) :=
  rfl

theorem enrichRows_get_not_mem (pr : List (Int × String)) (ow : Bool)
    (mf : Option Int) (cands : String → Option Fields) (idxs : List Nat)
    (i : Nat) (h : i ∉ idxs) :
    ∀ rows : List PlayerRow, (enrichRows pr ow mf idxs cands rows)[i]? = rows[i]? := by
  induction idxs with
  | nil => intro rows; rfl
  | cons j js ih =>
    intro rows
    rw [enrichRows_cons]
    have hji : j ≠ i := by rintro rfl; exact h (List.mem_cons_self _ _)
    have htl : i ∉ js := fun hm => h (List.mem_cons_of_mem _ hm)
    cases hr : rows[j]? with
    | none =>
      simp only [hr]
      exact ih htl rows
    | some row =>
      simp only [hr]
      rw [ih htl]
      exact List.getElem?_set_ne hji

theorem enrichRows_get_mem (pr : List (Int × String)) (ow : Bool)
    (mf : Option Int) (cands : String → Option Fields) (idxs : List Nat) (i : Nat) :
    idxs.Nodup → i ∈ idxs → ∀ rows : List PlayerRow,
      (enrichRows pr ow mf idxs cands rows)[i]? =
        (rows[i]?).map (fun row => (processRow pr ow mf i (cands row.full_name) row).1) := by
  induction idxs with
  | nil => intro _ hm; cases hm
  | cons j js ih =>
    intro hnd hm rows
    rw [enrichRows_cons]
    rcases List.mem_cons.mp hm with rfl | hmem
    · have htl : i ∉ js := (List.nodup_cons.mp hnd).1
      cases hr : rows[i]? with
      | none =>
        simp only [hr]
        rw [enrichRows_get_not_mem pr ow mf cands js i htl rows, hr]
        rfl
      | some row =>
        simp only [hr]
        rw [enrichRows_get_not_mem pr ow mf cands js i htl]
        rw [List.getElem?_set_self', hr]
        rfl
    · have hji : j ≠ i := by
        rintro rfl; exact (List.nodup_cons.mp hnd).1 hmem
      cases hr : rows[j]? with
      | none =>
        simp only [hr]
        rw [ih (List.nodup_cons.mp hnd).2 hmem rows]
      | some row =>
        simp only [hr]
        rw [ih (List.nodup_cons.mp hnd).2 hmem]
        rw [List.getElem?_set_ne hji]

/-- If every processed row is a fixed point of `processRow` producing no
changes, the whole pass is the identity with an empty change list. -/
theorem enrichRun_stable (pr : List (Int × String)) (ow : Bool) (mf : Option Int)
    (idxs : List Nat) (cands : String → Option Fields) (rows : List PlayerRow)
    (h : ∀ i ∈ idxs, ∀ row, rows[i]? = some row →
      processRow pr ow mf i (cands row.full_name) row = (row, [])) :
    enrichRun pr ow mf idxs cands rows = (rows, []) := by
  suffices hgen : ∀ (js : List Nat),
      (∀ i ∈ js, ∀ row, rows[i]? = some row →
        processRow pr ow mf i (cands row.full_name) row = (row, [])) →
      ∀ acc : List Change,
      (js.foldl
        (fun st idx =>
          match st.1[idx]? with
          | none => st
          | some row =>
            let res := processRow pr ow mf idx (cands row.full_name) row
            (st.1.set idx res.1, st.2 ++ res.2))
        (rows, acc)) = (rows, acc) by
    exact hgen idxs h []
  intro js
  induction js with
  | nil => intro _ acc; rfl
  | cons j js ih =>
    intro hj acc
    rw [List.foldl_cons]
    cases hr : rows[j]? with
    | none =>
      simp only [hr]
      exact ih (fun i hm => hj i (List.mem_cons_of_mem _ hm)) acc
    | some row =>
      simp only [hr]
      rw [hj j (List.mem_cons_self _ _) row hr]
      rw [set_self_of_getElem? rows j row hr]
      rw [List.append_nil]
      exact ih (fun i hm => hj i (List.mem_cons_of_mem _ hm)) acc

theorem enrichRows_nonregress (pr : List (Int × String)) (ow : Bool)
    (mf : Option Int) (cands : String → Option Fields) (idxs : List Nat) :
    ∀ (rows : List PlayerRow) (i : Nat) (col : Col) (r0 r1 : PlayerRow),
      rows[i]? = some r0 → (enrichRows pr ow mf idxs cands rows)[i]? = some r1 →
      r0.vals.get col ≠ "" → r1.vals.get col ≠ "" := by
  induction idxs with
  | nil =>
    intro rows i col r0 r1 h0 h1 hne
    have : some r0 = some r1 := h0 ▸ h1
    cases this
    exact hne
  | cons j js ih =>
    intro rows i col r0 r1 h0 h1 hne
    rw [enrichRows_cons] at h1
    cases hr : rows[j]? with
    | none =>
      simp only [hr] at h1
      exact ih rows i col r0 r1 h0 h1 hne
    | some row =>
      simp only [hr] at h1
      by_cases hij : i = j
      · subst hij
        have hrow : row = r0 := by
          have : some row = some r0 := hr ▸ h0
          cases this; rfl
        subst hrow
        have hmid : (rows.set i (processRow pr ow mf i (cands row.full_name) row).1)[i]? =
            some (processRow pr ow mf i (cands row.full_name) row).1 := by
          rw [List.getElem?_set_self', hr]
          rfl
        exact ih _ i col _ r1 hmid h1
          (processRow_get_nonempty pr ow mf i (cands row.full_name) row col hne)
      · have hmid : (rows.set j (processRow pr ow mf j (cands row.full_name) row).1)[i]? =
            some r0 := by
          rw [List.getElem?_set_ne (fun e => hij e.symm)]
          exact h0
        exact ih _ i col r0 r1 hmid h1 hne

/-- A ledger regenerated with an empty `prev_rejects` set carries no reject
markings at all. -/
theorem prevRejects_mkLedger_nil (chs : List Change) :
    prevRejects (mkLedger [] chs) = [] := by
  induction chs with
  | nil => rfl
  | cons c cs ih =>
    unfold mkLedger at ih ⊢
    rw [List.map_cons]
    unfold prevRejects at ih ⊢
    rw [List.filterMap_cons]
    have hrej : (stampReject [] c).reject = "" := by
      unfold stampReject
      simp
    rw [hrej]
    have : (pyStrip "" = "1") = False := by
      simp only [eq_iff_iff, iff_false]
      decide
    simp only [this, if_false]
    exact ih

theorem allFilled_ne_true_of_blank (f : Fields) (col : Col) (h : f.get col = "") :
    allFilled f ≠ true := by
  intro hall
  rw [allFilled, List.all_eq_true] at hall
  have := hall col (mem_targetCols col)
  rw [h] at this
  simp at this

/-! ## Claims -/

/-- C1: In the per-field decision policy of `enrich_csv`, a candidate value
for a field whose current value is empty is accepted for every overwrite
flag and every `min_first_date` setting: provided the `(player_id, column)`
pair was not previously rejected, and the candidate is non-empty (hence
differs from the empty current value), the new value is written into the
row and exactly one Change Record `(player_id, column, row_index,
old_value = "", new_value)` is produced, which the ledger stamping leaves
with `reject` unset.  (The overwrite/`min_first_date` gate can only fire on
a non-empty current value.) -/
theorem enrich_empty_field_accept (pr : List (Int × String)) (ow : Bool)
    (mf : Option Int) (idx : Nat) (row : PlayerRow) (cand : Fields) (col : Col)
    (hrej : (row.player_id, colName col) ∉ pr)
    (hold : row.vals.get col = "")
    (hnew : cand.get col ≠ "") :
    (processRow pr ow mf idx (some cand) row).1.vals.get col = cand.get col ∧
    (processRow pr ow mf idx (some cand) row).2.filter
        (fun ch => decide (ch.column = colName col)) =
      [fieldRec row.player_id row.full_name idx col "" (cand.get col)] ∧
    (stampReject pr
      (fieldRec row.player_id row.full_name idx col "" (cand.get col))).reject = "" := by
  have hnall := allFilled_ne_true_of_blank row.vals col hold
  have hacc : accepts pr row.player_id
      (allowOverwrite ow mf row.first_appearance) (row.vals.get col)
      (cand.get col) (colName col) := by
    rw [hold]
    refine ⟨hrej, ?_, ?_, ?_⟩
    · rintro ⟨-, hc⟩; exact hc rfl
    · exact hnew
    · rintro ⟨hc, -⟩; exact hc rfl
  refine ⟨?_, ?_, ?_⟩
  · unfold processRow
    rw [if_neg hnall]
    dsimp only
    rw [foldl_fieldStep_get_mem pr row.player_id row.full_name idx cand
      (allowOverwrite ow mf row.first_appearance) targetCols col
      targetCols_nodup (mem_targetCols col) (row.vals, [])]
    rw [if_pos hacc]
  · unfold processRow
    rw [if_neg hnall]
    dsimp only
    rw [foldl_fieldStep_filter_mem pr row.player_id row.full_name idx cand
      (allowOverwrite ow mf row.first_appearance) targetCols col
      targetCols_nodup (mem_targetCols col) (row.vals, [])]
    rw [if_pos hacc]
    rw [hold]
    rfl
  · unfold stampReject fieldRec
    dsimp only
    rw [if_neg hrej]

/-- Witness for C1 at a concrete input: player 1001 with empty
`birthplace`, candidate `"Moscow, Russia"`, `overwrite = false`. -/
theorem enrich_empty_field_accept_witness :
    (processRow [] false none 5
        (some { height_inches := "", height_cm := "", plays := "",
                birth_date := "", birthplace := "Moscow, Russia" })
        { player_id := 1001, full_name := "Vera Zvonareva",
          first_appearance := some 0,
          vals := { height_inches := "", height_cm := "", plays := "",
                    birth_date := "", birthplace := "" } }).1.vals.get
      .birthplace = "Moscow, Russia" ∧
    (processRow [] false none 5
        (some { height_inches := "", height_cm := "", plays := "",
                birth_date := "", birthplace := "Moscow, Russia" })
        { player_id := 1001, full_name := "Vera Zvonareva",
          first_appearance := some 0,
          vals := { height_inches := "", height_cm := "", plays := "",
                    birth_date := "", birthplace := "" } }).2.filter
        (fun ch => decide (ch.column = colName .birthplace)) =
      [fieldRec 1001 "Vera Zvonareva" 5 .birthplace "" "Moscow, Russia"] ∧
    (stampReject []
      (fieldRec 1001 "Vera Zvonareva" 5 .birthplace "" "Moscow, Russia")).reject = "" := by
  exact enrich_empty_field_accept [] false none 5
    { player_id := 1001, full_name := "Vera Zvonareva",
      first_appearance := some 0,
      vals := { height_inches := "", height_cm := "", plays := "",
                birth_date := "", birthplace := "" } }
    { height_inches := "", height_cm := "", plays := "",
      birth_date := "", birthplace := "Moscow, Russia" }
    .birthplace (by decide) (by decide) (by decide)

theorem optLe_refl (a : Option Int) : optLe a a = true := by
  cases a with
  | none => rfl
  | some x => simp [optLe]

/-- C6: `update_last_appearances` is monotone and selective: every player's
`last_appearance` in the result is `≥` the input value (with `NaT` ordered
below everything); the value is replaced by the player's maximum
observation date exactly when that date exists and strictly exceeds the
current value; and a player with no observation in the batch is returned
untouched. -/
theorem update_last_appearances_spec (players : List PRow) (ranks : List RankObs)
    (i : Nat) (p q : PRow)
    (hp : players[i]? = some p)
    (hq : (update_last_appearances players ranks)[i]? = some q) :
    optLe p.last_appearance q.last_appearance = true ∧
    q.last_appearance =
      (match latestDate ranks p.player_id with
       | none => p.last_appearance
       | some d =>
         if (match p.last_appearance with
             | none => false
             | some c => decide (c < d)) = true
         then some d else p.last_appearance) ∧
    (latestDate ranks p.player_id = none → q = p) := by
  have hmap : (update_last_appearances players ranks)[i]? =
      (players[i]?).map (fun r =>
        match latestDate ranks r.player_id with
        | none => r
        | some d =>
          if (match r.last_appearance with
              | none => false
              | some c => decide (c < d)) = true
          then { r with last_appearance := some d } else r) := by
    unfold update_last_appearances
    exact List.getElem?_map ..
  rw [hq, hp] at hmap
  rw [Option.map_some'] at hmap
  have hqp := Option.some.inj hmap
  cases hL : latestDate ranks p.player_id with
  | none =>
    rw [hL] at hqp
    refine ⟨?_, ?_, fun _ => hqp⟩
    · rw [hqp]; exact optLe_refl _
    · rw [hqp]
  | some d =>
    rw [hL] at hqp
    dsimp only at hqp ⊢
    by_cases hc : (match p.last_appearance with
        | none => false
        | some c => decide (c < d)) = true
    · rw [if_pos hc] at hqp
      refine ⟨?_, ?_, fun hL0 => Option.noConfusion hL0⟩
      · rw [hqp]
        cases hpa : p.last_appearance with
        | none => rfl
        | some c =>
          rw [hpa] at hc
          simp only [decide_eq_true_eq] at hc
          simp [optLe, le_of_lt hc]
      · rw [hqp, if_pos hc]
    · rw [if_neg hc] at hqp
      refine ⟨?_, ?_, fun hL0 => Option.noConfusion hL0⟩
      · rw [hqp]; exact optLe_refl _
      · rw [hqp, if_neg hc]

/-- Witness for C6: one player with `last_appearance` 10 and one newer
observation at 20 is advanced to 20. -/
theorem update_last_appearances_spec_witness :
    optLe (some 10) (some 20) = true ∧
    (some 20 : Option Int) =
      (match latestDate [{ player_id := 1, date := 20 }] (1 : Int) with
       | none => (some 10 : Option Int)
       | some d =>
         if (match (some 10 : Option Int) with
             | none => false
             | some c => decide (c < d)) = true
         then some d else (some 10 : Option Int)) ∧
    (latestDate [{ player_id := 1, date := 20 }] (1 : Int) = none →
      ({ player_id := 1, last_appearance := some 20 } : PRow) =
        { player_id := 1, last_appearance := some 10 }) := by
  exact update_last_appearances_spec
    [{ player_id := 1, last_appearance := some 10 }]
    [{ player_id := 1, date := 20 }] 0
    { player_id := 1, last_appearance := some 10 }
    { player_id := 1, last_appearance := some 20 }
    (by decide) (by decide)

/-- C7: `find_new_ids` is purely set-based and order-independent: its
members are exactly the ids occurring in the rankings column but not in the
existing column, it is invariant under permutation of either column, and it
is invariant under deduplication of either column. -/
theorem find_new_ids_spec :
    (∀ (P R : List Int) (x : Int), x ∈ find_new_ids P R ↔ x ∈ R ∧ x ∉ P) ∧
    (∀ (P P' R R' : List Int), P.Perm P' → R.Perm R' →
      find_new_ids P R = find_new_ids P' R') ∧
    (∀ (P R : List Int), find_new_ids P R = find_new_ids P.dedup R.dedup) := by
  refine ⟨?_, ?_, ?_⟩
  · intro P R x
    unfold find_new_ids
    rw [Finset.mem_sdiff, List.mem_toFinset, List.mem_toFinset]
  · intro P P' R R' hP hR
    unfold find_new_ids
    rw [List.toFinset_eq_of_perm _ _ hP, List.toFinset_eq_of_perm _ _ hR]
  · intro P R
    unfold find_new_ids
    rw [List.toFinset.ext (fun x => (List.mem_dedup (l := P))),
        List.toFinset.ext (fun x => (List.mem_dedup (l := R)))]

/-- Witness for C7 at concrete inputs with duplicates and reordering. -/
theorem find_new_ids_spec_witness :
    ((3 : Int) ∈ find_new_ids [1, 2] [2, 3] ∧ ¬((2 : Int) ∈ find_new_ids [1, 2] [2, 3])) ∧
    find_new_ids [1, 2] [2, 3, 3] = find_new_ids [2, 1] [3, 2, 3] := by
  refine ⟨⟨?_, ?_⟩, ?_⟩
  · exact (find_new_ids_spec.1 [1, 2] [2, 3] 3).mpr (by decide)
  · intro hmem
    have := (find_new_ids_spec.1 [1, 2] [2, 3] 2).mp hmem
    exact absurd this (by decide)
  · exact find_new_ids_spec.2.1 [1, 2] [2, 1] [2, 3, 3] [3, 2, 3]
      (by decide) (by decide)

/-- C8 counterexample: a row whose `player_id` fails numeric coercion is
*not* dropped by `load_players` — it is retained with a missing id (the
`dropna` acts on the extracted series, and the column assignment realigns
by index, reintroducing the missing value). -/
theorem load_players_counterexample :
    (load_players [{ player_id := none, full_name := "Bad Id" },
                   { player_id := some 7, full_name := "Fine" }]).length = 2 ∧
    (load_players [{ player_id := none, full_name := "Bad Id" },
                   { player_id := some 7, full_name := "Fine" }])[0]? =
      some { player_id := none, full_name := "Bad Id" } := by
  exact ⟨by decide, by decide⟩

theorem lookup_enumFrom_lt (xs : List RawPlayerRow) :
    ∀ (n k : Nat), k < n →
      ((List.enumFrom n xs).filterMap
        (fun p => p.2.player_id.map fun m => (p.1, m))).lookup k = none := by
  induction xs with
  | nil => intro n k _; rfl
  | cons x xs ih =>
    intro n k hk
    rw [List.enumFrom_cons, List.filterMap_cons]
    cases hx : x.player_id with
    | none =>
      simp only [hx, Option.map_none']
      exact ih (n + 1) k (Nat.lt_succ_of_lt hk)
    | some m =>
      simp only [hx, Option.map_some']
      have hne : (k == n) = false := by
        simp only [beq_eq_false_iff_ne, ne_eq]
        exact Nat.ne_of_lt hk
      simp only [List.lookup, hne]
      exact ih (n + 1) k (Nat.lt_succ_of_lt hk)

theorem lookup_enumFrom (xs : List RawPlayerRow) :
    ∀ (n i : Nat),
      ((List.enumFrom n xs).filterMap
        (fun p => p.2.player_id.map fun m => (p.1, m))).lookup (n + i) =
        (xs[i]?).bind RawPlayerRow.player_id := by
  induction xs with
  | nil => intro n i; rfl
  | cons x xs ih =>
    intro n i
    rw [List.enumFrom_cons, List.filterMap_cons]
    cases i with
    | zero =>
      cases hx : x.player_id with
      | none =>
        simp only [hx, Option.map_none']
        rw [Nat.add_zero]
        rw [lookup_enumFrom_lt xs (n + 1) n (Nat.lt_succ_self n)]
        simp [hx]
      | some m =>
        simp only [hx, Option.map_some']
        rw [Nat.add_zero]
        simp [List.lookup, hx]
    | succ j =>
      have hkey : n + (j + 1) = (n + 1) + j := by omega
      cases hx : x.player_id with
      | none =>
        simp only [hx, Option.map_none']
        rw [hkey, ih (n + 1) j]
        simp
      | some m =>
        simp only [hx, Option.map_some']
        have hne : (n + (j + 1) == n) = false := by
          simp only [beq_eq_false_iff_ne, ne_eq]
          omega
        simp only [List.lookup, hne]
        rw [hkey, ih (n + 1) j]
        simp

/-- C8 amended: `load_players` retains every row; a coercible `player_id`
is kept as the coerced integer, an uncoercible one is kept as a missing
value — no row is dropped and nothing is raised. -/
theorem load_players_amended (rows : List RawPlayerRow) :
    load_players rows = rows := by
  apply List.ext_getElem?
  intro i
  unfold load_players
  rw [List.getElem?_map]
  rw [List.getElem?_enum]
  cases hr : rows[i]? with
  | none => rfl
  | some r =>
    simp only [Option.map_some']
    have hl := lookup_enumFrom rows 0 i
    rw [Nat.zero_add] at hl
    unfold List.enum
    rw [hl, hr]
    rfl

/-- C2 counterexample: with `overwrite=True`, a failed country lookup
(`code = None` after both stages) *does* replace a non-empty
`represented_country` with an empty value in `enrich_country_codes`,
refuting non-regression "for any setting of the overwrite flag". -/
theorem nonregression_counterexample :
    countryRun true (fun _ _ => none)
        [{ player_id := "1001", full_name := "Anna K",
           represented_country := some "RUS" }] =
      [{ player_id := "1001", full_name := "Anna K",
         represented_country := none }] := by
  decide

/-- C2 amended: the Wikipedia field enrichment never replaces a non-empty
field with an empty one, for every overwrite flag and `min_first_date`; the
country-code enrichment preserves every present non-blank
`represented_country` when `overwrite` is off (with `overwrite=True` a
failed lookup loses it, see the counterexample). -/
theorem nonregression_amended :
    (∀ (pr : List (Int × String)) (ow : Bool) (mf : Option Int)
        (idxs : List Nat) (cands : String → Option Fields)
        (rows : List PlayerRow) (i : Nat) (col : Col) (r0 r1 : PlayerRow),
      rows[i]? = some r0 →
      (enrichRun pr ow mf idxs cands rows).1[i]? = some r1 →
      r0.vals.get col ≠ "" → r1.vals.get col ≠ "") ∧
    (∀ (scr : String → String → Option String) (rows : List CRow)
        (i : Nat) (r0 r1 : CRow) (s : String),
      rows[i]? = some r0 → (countryRun false scr rows)[i]? = some r1 →
      r0.represented_country = some s → pyStrip s ≠ "" →
      r1.represented_country = some s) := by
  constructor
  · intro pr ow mf idxs cands rows i col r0 r1 h0 h1 hne
    rw [enrichRun_fst] at h1
    exact enrichRows_nonregress pr ow mf cands idxs rows i col r0 r1 h0 h1 hne
  · intro scr rows i r0 r1 s h0 h1 hs hsne
    unfold countryRun at h1
    rw [List.getElem?_map, h0, Option.map_some'] at h1
    have h2 := Option.some.inj h1
    rw [← h2]
    dsimp only
    rw [hs]
    unfold countryCell
    rw [if_pos ⟨hsne, rfl⟩]

/-- Witness for C2 (amended) at concrete inputs. -/
theorem nonregression_amended_witness :
    ({ player_id := 5, full_name := "A", first_appearance := none,
       vals := { height_inches := "", height_cm := "", plays := "",
                 birth_date := "", birthplace := "Paris, France" } } : PlayerRow).vals.get
        .birthplace ≠ "" ∧
    ({ player_id := "5", full_name := "A",
       represented_country := some "FRA" } : CRow).represented_country = some "FRA" := by
  constructor
  · exact nonregression_amended.1 [] false none [0] (fun _ => none)
      [{ player_id := 5, full_name := "A", first_appearance := none,
         vals := { height_inches := "", height_cm := "", plays := "",
                   birth_date := "", birthplace := "Paris, France" } }] 0 .birthplace
      { player_id := 5, full_name := "A", first_appearance := none,
        vals := { height_inches := "", height_cm := "", plays := "",
                  birth_date := "", birthplace := "Paris, France" } }
      { player_id := 5, full_name := "A", first_appearance := none,
        vals := { height_inches := "", height_cm := "", plays := "",
                  birth_date := "", birthplace := "Paris, France" } }
      (by decide) (by decide) (by decide)
  · exact nonregression_amended.2 (fun _ _ => none)
      [{ player_id := "5", full_name := "A", represented_country := some "FRA" }] 0
      { player_id := "5", full_name := "A", represented_country := some "FRA" }
      { player_id := "5", full_name := "A", represented_country := some "FRA" }
      "FRA" (by decide) (by decide) (by decide) (by decide)

theorem foldl_fieldStep_notin (pr : List (Int × String)) (pid : Int)
    (name : String) (idx : Nat) (cand : Fields) (ao : Bool) (cols : List Col) :
    ∀ st : Fields × List Change,
      (∀ c ∈ st.2, (c.player_id, c.column) ∉ pr) →
      ∀ c ∈ (cols.foldl (fieldStep pr pid name idx cand ao) st).2,
        (c.player_id, c.column) ∉ pr := by
  induction cols with
  | nil => intro st h; exact h
  | cons c0 cs ih =>
    intro st h
    rw [List.foldl_cons]
    apply ih
    rw [fieldStep_eq]
    split_ifs with ha
    · intro c hc
      rcases List.mem_append.mp hc with hmem | hmem
      · exact h c hmem
      · rcases List.mem_singleton.mp hmem with rfl
        exact ha.1
    · exact h

theorem processRow_changes_notin (pr : List (Int × String)) (ow : Bool)
    (mf : Option Int) (idx : Nat) (cand? : Option Fields) (row : PlayerRow) :
    ∀ c ∈ (processRow pr ow mf idx cand? row).2, (c.player_id, c.column) ∉ pr := by
  unfold processRow
  split_ifs
  · intro c hc; exact absurd hc (List.not_mem_nil c)
  · cases cand? with
    | none => intro c hc; exact absurd hc (List.not_mem_nil c)
    | some cand =>
      dsimp only
      apply foldl_fieldStep_notin
      intro c hc
      exact absurd hc (List.not_mem_nil c)

theorem enrichRun_changes_notin (pr : List (Int × String)) (ow : Bool)
    (mf : Option Int) (idxs : List Nat) (cands : String → Option Fields)
    (rows : List PlayerRow) :
    ∀ c ∈ (enrichRun pr ow mf idxs cands rows).2, (c.player_id, c.column) ∉ pr := by
  suffices hgen : ∀ (js : List Nat) (rs : List PlayerRow) (acc : List Change),
      (∀ c ∈ acc, (c.player_id, c.column) ∉ pr) →
      ∀ c ∈ (js.foldl
        (fun st idx =>
          match st.1[idx]? with
          | none => st
          | some row =>
            let res := processRow pr ow mf idx (cands row.full_name) row
            (st.1.set idx res.1, st.2 ++ res.2))
        (rs, acc)).2, (c.player_id, c.column) ∉ pr by
    exact hgen idxs rows [] (fun c hc => absurd hc (List.not_mem_nil c))
  intro js
  induction js with
  | nil => intro rs acc h; exact h
  | cons j js ih =>
    intro rs acc h
    rw [List.foldl_cons]
    cases hr : rs[j]? with
    | none =>
      simp only [hr]
      exact ih rs acc h
    | some row =>
      simp only [hr]
      apply ih
      intro c hc
      rcases List.mem_append.mp hc with hmem | hmem
      · exact h c hmem
      · exact processRow_changes_notin pr ow mf j (cands row.full_name) row c hmem

/-- C9 counterexample: a run that accepts zero changes does *not* overwrite
the ledger — the previous ledger (here containing a stale row from an
earlier run) survives unchanged, so after a zero-change run the ledger does
not reflect only the current run. -/
theorem ledger_persist_counterexample :
    enrichStep false none [0] (fun _ => none)
        ([{ player_id := 7, full_name := "Olga", first_appearance := some 0,
            vals := { height_inches := "a", height_cm := "b", plays := "c",
                      birth_date := "d", birthplace := "e" } }],
         some [{ player_id := some 9, player_name := "Stale", column := "plays",
                 row_index := 3, old_value := "x", new_value := "y",
                 reject := "" }]) =
      ([{ player_id := 7, full_name := "Olga", first_appearance := some 0,
          vals := { height_inches := "a", height_cm := "b", plays := "c",
                    birth_date := "d", birthplace := "e" } }],
       some [{ player_id := some 9, player_name := "Stale", column := "plays",
               row_index := 3, old_value := "x", new_value := "y",
               reject := "" }]) := by
  decide

/-- C9 amended: the ledger at the fixed summary path is fully overwritten
with this run's stamped Change Records exactly when at least one change was
accepted; a zero-change run leaves the previous ledger in place.  Moreover
every row of the regenerated ledger has `reject` blank: an accepted change
never concerns a previously rejected `(player_id, column)` pair (rule 1
skips those), so the carry-over re-stamping never fires. -/
theorem ledger_persist_amended (ow : Bool) (mf : Option Int) (idxs : List Nat)
    (cands : String → Option Fields) (rows : List PlayerRow)
    (led0 : Option (List LedgerRow)) :
    (enrichStep ow mf idxs cands (rows, led0)).2 =
      (if (enrichRun (ledgerRejects led0) ow mf idxs cands rows).2 = []
       then led0
       else some (mkLedger (ledgerRejects led0)
         (enrichRun (ledgerRejects led0) ow mf idxs cands rows).2)) ∧
    (∀ lr ∈ mkLedger (ledgerRejects led0)
        (enrichRun (ledgerRejects led0) ow mf idxs cands rows).2,
      lr.reject = "") := by
  constructor
  · rfl
  · intro lr hlr
    rcases List.mem_map.mp hlr with ⟨c, hc, rfl⟩
    unfold stampReject
    dsimp only
    rw [if_neg (enrichRun_changes_notin (ledgerRejects led0) ow mf idxs cands
      rows c hc)]

/-- Witness for C9 (amended): a run that accepts one change produces a
ledger row whose `reject` flag is blank. -/
theorem ledger_persist_amended_witness :
    ({ player_id := some 3, player_name := "Nora", column := "birthplace",
       row_index := 0, old_value := "", new_value := "Lyon, France",
       reject := "" } : LedgerRow).reject = "" := by
  exact (ledger_persist_amended false none [0]
      (fun _ => some { height_inches := "", height_cm := "", plays := "",
                       birth_date := "", birthplace := "Lyon, France" })
      [{ player_id := 3, full_name := "Nora", first_appearance := none,
         vals := { height_inches := "", height_cm := "", plays := "",
                   birth_date := "", birthplace := "" } }] none).2
    _ (by decide)

/-- C3 (code bug): reject persistence fails beyond one run.  Start from a
ledger marking `(1, "birthplace")` rejected.  The next run skips that pair
(rule 1) but accepts another field, so it rewrites the ledger; because
rejected pairs never appear among the accepted changes, the carry-over
re-stamp (lines 317-319) matches nothing and the `"1"` marking is lost.
The run after that therefore no longer sees the pair in `prev_rejects`,
applies the candidate to it, and logs it with `reject` blank — contradicting
both the claim and the code's own comments ("carry over the '1'",
"Change log with preserved rejects"). -/
theorem reject_persistence_violation :
    (1, "birthplace") ∈ prevRejects
      [{ player_id := some 1, player_name := "Anna", column := "birthplace",
         row_index := 0, old_value := "", new_value := "Moscow, Russia",
         reject := "1" }] ∧
    enrichStep false none [0]
      (fun n => if n = "Anna" then
          some { height_inches := "", height_cm := "", plays := "Right-Handed",
                 birth_date := "", birthplace := "Moscow, Russia" }
        else none)
      (enrichStep false none [0]
        (fun n => if n = "Anna" then
            some { height_inches := "", height_cm := "", plays := "Right-Handed",
                   birth_date := "", birthplace := "Moscow, Russia" }
          else none)
        ([{ player_id := 1, full_name := "Anna", first_appearance := some 0,
            vals := { height_inches := "", height_cm := "", plays := "",
                      birth_date := "", birthplace := "" } }],
         some [{ player_id := some 1, player_name := "Anna",
                 column := "birthplace", row_index := 0, old_value := "",
                 new_value := "Moscow, Russia", reject := "1" }])) =
      ([{ player_id := 1, full_name := "Anna", first_appearance := some 0,
          vals := { height_inches := "", height_cm := "",
                    plays := "Right-Handed", birth_date := "",
                    birthplace := "Moscow, Russia" } }],
       some [{ player_id := some 1, player_name := "Anna",
               column := "birthplace", row_index := 0, old_value := "",
               new_value := "Moscow, Russia", reject := "" }]) := by
  exact ⟨by decide, by decide⟩

/-- C4 counterexample: idempotence fails when the ledger before the first
run carries a reject marking.  With `(2, "birthplace")` rejected, the first
run skips that field but accepts `plays`, rewriting the ledger and losing
the marking; the second run — on the first run's output, with identical
candidates — then accepts the `birthplace` candidate: it produces a new
Change Record and changes the table. -/
theorem idempotence_counterexample :
    (enrichRun
        (ledgerRejects
          (enrichStep false none [0]
            (fun n => if n = "Bea" then
                some { height_inches := "", height_cm := "",
                       plays := "Left-Handed", birth_date := "",
                       birthplace := "Kyiv, Ukraine" }
              else none)
            ([{ player_id := 2, full_name := "Bea", first_appearance := some 0,
                vals := { height_inches := "", height_cm := "", plays := "",
                          birth_date := "", birthplace := "" } }],
             some [{ player_id := some 2, player_name := "Bea",
                     column := "birthplace", row_index := 0, old_value := "",
                     new_value := "Kyiv, Ukraine", reject := "1" }])).2)
        false none [0]
        (fun n => if n = "Bea" then
            some { height_inches := "", height_cm := "",
                   plays := "Left-Handed", birth_date := "",
                   birthplace := "Kyiv, Ukraine" }
          else none)
        (enrichStep false none [0]
          (fun n => if n = "Bea" then
              some { height_inches := "", height_cm := "",
                     plays := "Left-Handed", birth_date := "",
                     birthplace := "Kyiv, Ukraine" }
            else none)
          ([{ player_id := 2, full_name := "Bea", first_appearance := some 0,
              vals := { height_inches := "", height_cm := "", plays := "",
                        birth_date := "", birthplace := "" } }],
           some [{ player_id := some 2, player_name := "Bea",
                   column := "birthplace", row_index := 0, old_value := "",
                   new_value := "Kyiv, Ukraine", reject := "1" }])).1).2 =
      [{ player_id := 2, player_name := "Bea", column := "birthplace",
         row_index := 0, old_value := "", new_value := "Kyiv, Ukraine" }] ∧
    (enrichRun
        (ledgerRejects
          (enrichStep false none [0]
            (fun n => if n = "Bea" then
                some { height_inches := "", height_cm := "",
                       plays := "Left-Handed", birth_date := "",
                       birthplace := "Kyiv, Ukraine" }
              else none)
            ([{ player_id := 2, full_name := "Bea", first_appearance := some 0,
                vals := { height_inches := "", height_cm := "", plays := "",
                          birth_date := "", birthplace := "" } }],
             some [{ player_id := some 2, player_name := "Bea",
                     column := "birthplace", row_index := 0, old_value := "",
                     new_value := "Kyiv, Ukraine", reject := "1" }])).2)
        false none [0]
        (fun n => if n = "Bea" then
            some { height_inches := "", height_cm := "",
                   plays := "Left-Handed", birth_date := "",
                   birthplace := "Kyiv, Ukraine" }
          else none)
        (enrichStep false none [0]
          (fun n => if n = "Bea" then
              some { height_inches := "", height_cm := "",
                     plays := "Left-Handed", birth_date := "",
                     birthplace := "Kyiv, Ukraine" }
            else none)
          ([{ player_id := 2, full_name := "Bea", first_appearance := some 0,
              vals := { height_inches := "", height_cm := "", plays := "",
                        birth_date := "", birthplace := "" } }],
           some [{ player_id := some 2, player_name := "Bea",
                   column := "birthplace", row_index := 0, old_value := "",
                   new_value := "Kyiv, Ukraine", reject := "1" }])).1).1 ≠
      (enrichStep false none [0]
        (fun n => if n = "Bea" then
            some { height_inches := "", height_cm := "",
                   plays := "Left-Handed", birth_date := "",
                   birthplace := "Kyiv, Ukraine" }
          else none)
        ([{ player_id := 2, full_name := "Bea", first_appearance := some 0,
            vals := { height_inches := "", height_cm := "", plays := "",
                      birth_date := "", birthplace := "" } }],
         some [{ player_id := some 2, player_name := "Bea",
                 column := "birthplace", row_index := 0, old_value := "",
                 new_value := "Kyiv, Ukraine", reject := "1" }])).1 := by
  exact ⟨by decide, by decide⟩

/-- C4 amended: provided the ledger state before the first run carries no
reject markings, the Enrichment Engine is idempotent: a second run on the
first run's output, with identical candidates and the same processed index
set (the indices are distinct by construction), leaves the table identical
and produces zero new Change Records. -/
theorem idempotence_amended (ow : Bool) (mf : Option Int) (idxs : List Nat)
    (cands : String → Option Fields) (rows : List PlayerRow)
    (led0 : Option (List LedgerRow))
    (hnd : idxs.Nodup)
    (hpr : ledgerRejects led0 = []) :
    enrichRun (ledgerRejects (enrichStep ow mf idxs cands (rows, led0)).2)
        ow mf idxs cands (enrichStep ow mf idxs cands (rows, led0)).1 =
      ((enrichStep ow mf idxs cands (rows, led0)).1, []) := by
  have hst2 : ledgerRejects (enrichStep ow mf idxs cands (rows, led0)).2 = [] := by
    unfold enrichStep
    dsimp only
    rw [hpr]
    by_cases hch : (enrichRun [] ow mf idxs cands rows).2 = []
    · rw [if_pos hch]; exact hpr
    · rw [if_neg hch]; exact prevRejects_mkLedger_nil _
  have hst1 : (enrichStep ow mf idxs cands (rows, led0)).1 =
      enrichRows [] ow mf idxs cands rows := by
    unfold enrichStep
    dsimp only
    rw [hpr, enrichRun_fst]
  rw [hst2, hst1]
  apply enrichRun_stable
  intro i hi row hrow
  rw [enrichRows_get_mem [] ow mf cands idxs i hnd hi rows] at hrow
  cases hr0 : rows[i]? with
  | none =>
    rw [hr0] at hrow
    cases hrow
  | some row0 =>
    rw [hr0, Option.map_some'] at hrow
    have hrw := Option.some.inj hrow
    rw [← hrw]
    have hname : (processRow [] ow mf i (cands row0.full_name) row0).1.full_name =
        row0.full_name :=
      (processRow_fst_id [] ow mf i (cands row0.full_name) row0).2.1
    rw [hname]
    exact processRow_idem ow mf i (cands row0.full_name) row0

/-- Witness for C4 (amended) at a concrete input with an empty initial
ledger: the second run returns the first run's table unchanged with no new
Change Records. -/
theorem idempotence_amended_witness :
    enrichRun
        (ledgerRejects
          (enrichStep false none [0]
            (fun _ => some { height_inches := "", height_cm := "", plays := "",
                             birth_date := "", birthplace := "Rome, Italy" })
            ([{ player_id := 4, full_name := "Carla", first_appearance := some 0,
                vals := { height_inches := "", height_cm := "", plays := "",
                          birth_date := "", birthplace := "" } }], none)).2)
        false none [0]
        (fun _ => some { height_inches := "", height_cm := "", plays := "",
                         birth_date := "", birthplace := "Rome, Italy" })
        (enrichStep false none [0]
          (fun _ => some { height_inches := "", height_cm := "", plays := "",
                           birth_date := "", birthplace := "Rome, Italy" })
          ([{ player_id := 4, full_name := "Carla", first_appearance := some 0,
              vals := { height_inches := "", height_cm := "", plays := "",
                        birth_date := "", birthplace := "" } }], none)).1 =
      ((enrichStep false none [0]
          (fun _ => some { height_inches := "", height_cm := "", plays := "",
                           birth_date := "", birthplace := "Rome, Italy" })
          ([{ player_id := 4, full_name := "Carla", first_appearance := some 0,
              vals := { height_inches := "", height_cm := "", plays := "",
                        birth_date := "", birthplace := "" } }], none)).1, []) := by
  exact idempotence_amended false none [0]
    (fun _ => some { height_inches := "", height_cm := "", plays := "",
                     birth_date := "", birthplace := "Rome, Italy" })
    [{ player_id := 4, full_name := "Carla", first_appearance := some 0,
       vals := { height_inches := "", height_cm := "", plays := "",
                 birth_date := "", birthplace := "" } }] none
    (by decide) rfl

/-! ### Helper lemmas on the Revert Tool -/

theorem lookup_cons (key k x : String) (rest : List (String × String)) :
    List.lookup key ((k, x) :: rest) =
      if key = k then some x else List.lookup key rest := by
  by_cases h : key = k
  · subst h; simp [List.lookup]
  · have hb : (key == k) = false := beq_eq_false_iff_ne.mpr h
    simp [List.lookup, hb, h]

theorem setCellRow_cons (k x col v : String) (rest : List (String × String)) :
    setCellRow ((k, x) :: rest) col v =
      (if k = col then (k, v) else (k, x)) :: setCellRow rest col v := by
  unfold setCellRow
  rw [List.map_cons]

theorem setCellRow_lookup (row : TRow) (col c v : String) :
    List.lookup c (setCellRow row col v) =
      if c = col ∧ (List.lookup col row).isSome = true then some v
      else List.lookup c row := by
  induction row with
  | nil => simp [setCellRow, List.lookup]
  | cons p rest ih =>
    obtain ⟨k, x⟩ := p
    by_cases hk : k = col
    · subst hk
      rw [setCellRow_cons, if_pos rfl]
      by_cases hc : c = k
      · subst hc
        rw [lookup_cons, if_pos rfl]
        rw [if_pos ⟨rfl, by rw [lookup_cons, if_pos rfl]; rfl⟩]
      · rw [lookup_cons, if_neg hc, ih]
        rw [if_neg (fun hand => hc hand.1), if_neg (fun hand => hc hand.1)]
        rw [lookup_cons, if_neg hc]
    · rw [setCellRow_cons, if_neg hk]
      by_cases hc : c = k
      · subst hc
        rw [lookup_cons, if_pos rfl]
        rw [if_neg (show ¬(c = col ∧
          (List.lookup col ((c, x) :: rest)).isSome = true) from
            fun hand => hk hand.1)]
        rw [lookup_cons, if_pos rfl]
      · rw [lookup_cons, if_neg hc, ih]
        rw [show List.lookup col ((k, x) :: rest) = List.lookup col rest from by
          rw [lookup_cons]; exact if_neg (fun e => hk e.symm)]
        rw [show List.lookup c ((k, x) :: rest) = List.lookup c rest from by
          rw [lookup_cons]; exact if_neg hc]

theorem applyRevert_eq_some (t : List TRow) (r : SummaryRow) (t1 : List TRow)
    (h : applyRevert t r = some t1) :
    ∃ row, t[r.row_index]? = some row ∧ (List.lookup r.column row).isSome = true ∧
      t1 = t.set r.row_index (setCellRow row r.column r.old_value) := by
  unfold applyRevert at h
  cases ht : t[r.row_index]? with
  | none =>
    rw [ht] at h
    dsimp only at h
    cases h
  | some row =>
    rw [ht] at h
    dsimp only at h
    cases hlk : List.lookup r.column row with
    | none =>
      rw [hlk] at h
      cases h
    | some x =>
      rw [hlk] at h
      exact ⟨row, rfl, by rw [hlk]; rfl, (Option.some.inj h).symm⟩

theorem applyRevert_cellGet (t : List TRow) (r : SummaryRow) (t1 : List TRow)
    (h : applyRevert t r = some t1) :
    t1.length = t.length ∧
    cellGet t1 r.row_index r.column = some r.old_value ∧
    (∀ i c, ¬(r.row_index = i ∧ r.column = c) → cellGet t1 i c = cellGet t i c) ∧
    (∀ i c, (cellGet t1 i c).isSome = (cellGet t i c).isSome) := by
  obtain ⟨row, ht, hsome, rfl⟩ := applyRevert_eq_some t r t1 h
  have hset : ∀ c : String,
      cellGet (t.set r.row_index (setCellRow row r.column r.old_value))
          r.row_index c =
        List.lookup c (setCellRow row r.column r.old_value) := by
    intro c
    unfold cellGet
    rw [List.getElem?_set_self', ht]
    rfl
  refine ⟨List.length_set .., ?_, ?_, ?_⟩
  · rw [hset r.column, setCellRow_lookup, if_pos ⟨rfl, hsome⟩]
  · intro i c hne
    by_cases hi : r.row_index = i
    · subst hi
      have hcne : ¬(c = r.column) := fun e => hne ⟨rfl, e.symm⟩
      rw [hset c, setCellRow_lookup]
      rw [if_neg (fun hand => hcne hand.1)]
      unfold cellGet
      rw [ht]
    · unfold cellGet
      rw [List.getElem?_set_ne hi]
  · intro i c
    by_cases hi : r.row_index = i
    · subst hi
      rw [hset c, setCellRow_lookup]
      unfold cellGet
      rw [ht]
      split_ifs with hcond
      · rw [hcond.1, hsome]
        rfl
      · rfl
    · unfold cellGet
      rw [List.getElem?_set_ne hi]

theorem revert_foldlM_frame (frs : List SummaryRow) :
    ∀ t t' : List TRow, List.foldlM applyRevert t frs = some t' →
      t'.length = t.length ∧
      (∀ i c, (∀ r ∈ frs, ¬(r.row_index = i ∧ r.column = c)) →
        cellGet t' i c = cellGet t i c) ∧
      (∀ i c, (cellGet t' i c).isSome = (cellGet t i c).isSome) := by
  induction frs with
  | nil =>
    intro t t' h
    have h2 : (some t : Option (List TRow)) = some t' := h
    cases Option.some.inj h2
    exact ⟨rfl, fun i c _ => rfl, fun i c => rfl⟩
  | cons r0 rest ih =>
    intro t t' h
    have h2 : applyRevert t r0 >>=
        (fun t1 => List.foldlM applyRevert t1 rest) = some t' := h
    cases ha : applyRevert t r0 with
    | none =>
      rw [ha] at h2
      have h3 : (none : Option (List TRow)) = some t' := h2
      cases h3
    | some t1 =>
      rw [ha] at h2
      have h3 : List.foldlM applyRevert t1 rest = some t' := h2
      obtain ⟨hlen1, -, hframe1, hsome1⟩ := applyRevert_cellGet t r0 t1 ha
      obtain ⟨hlen2, hframe2, hsome2⟩ := ih t1 t' h3
      refine ⟨hlen2.trans hlen1, ?_, fun i c => (hsome2 i c).trans (hsome1 i c)⟩
      intro i c hnr
      rw [hframe2 i c (fun r hr => hnr r (List.mem_cons_of_mem _ hr))]
      exact hframe1 i c (hnr r0 (List.mem_cons_self _ _))

theorem revert_foldlM_isSome (frs : List SummaryRow) :
    ∀ t : List TRow,
      (∀ r ∈ frs, (cellGet t r.row_index r.column).isSome = true) →
      (List.foldlM applyRevert t frs).isSome = true := by
  induction frs with
  | nil => intro t _; rfl
  | cons r0 rest ih =>
    intro t h
    have h0 := h r0 (List.mem_cons_self _ _)
    unfold cellGet at h0
    cases ht : t[r0.row_index]? with
    | none =>
      rw [ht] at h0
      cases h0
    | some row =>
      rw [ht] at h0
      dsimp only at h0
      cases hlk : List.lookup r0.column row with
      | none =>
        rw [hlk] at h0
        cases h0
      | some x =>
        have ha : applyRevert t r0 =
            some (t.set r0.row_index (setCellRow row r0.column r0.old_value)) := by
          unfold applyRevert
          rw [ht]
          dsimp only
          rw [hlk]
        rw [show List.foldlM applyRevert t (r0 :: rest) =
          applyRevert t r0 >>= (fun t1 => List.foldlM applyRevert t1 rest) from rfl]
        rw [ha]
        show (List.foldlM applyRevert
          (t.set r0.row_index (setCellRow row r0.column r0.old_value)) rest).isSome = true
        apply ih
        intro r hr
        obtain ⟨-, -, -, hsome⟩ := applyRevert_cellGet t r0 _ ha
        rw [hsome]
        exact h r (List.mem_cons_of_mem _ hr)

theorem revert_foldlM_lastwins (frs : List SummaryRow)
    (hnd : (frs.map fun r => (r.row_index, r.column)).Nodup) :
    ∀ t t' : List TRow, List.foldlM applyRevert t frs = some t' →
      ∀ r ∈ frs, cellGet t' r.row_index r.column = some r.old_value := by
  induction frs with
  | nil => intro t t' _ r hr; exact absurd hr (List.not_mem_nil r)
  | cons r0 rest ih =>
    intro t t' h r hr
    have h2 : applyRevert t r0 >>=
        (fun t1 => List.foldlM applyRevert t1 rest) = some t' := h
    cases ha : applyRevert t r0 with
    | none =>
      rw [ha] at h2
      have h3 : (none : Option (List TRow)) = some t' := h2
      cases h3
    | some t1 =>
      rw [ha] at h2
      have h3 : List.foldlM applyRevert t1 rest = some t' := h2
      obtain ⟨-, hcell1, -, -⟩ := applyRevert_cellGet t r0 t1 ha
      rcases List.mem_cons.mp hr with rfl | hmem
      · have hfr := (revert_foldlM_frame rest t1 t' h3).2.1
        rw [hfr r.row_index r.column ?notouch]
        · exact hcell1
        case notouch =>
          intro r2 hr2 hand
          apply (List.nodup_cons.mp hnd).1
          exact List.mem_map.mpr ⟨r2, hr2, by rw [hand.1, hand.2]⟩
      · exact ih (List.nodup_cons.mp hnd).2 t1 t' h3 r hmem

/-- C5 counterexample: when two flagged ledger rows target the same
`(row_index, column)` with different `old_value`s, the tool applies them in
ledger order and the later one wins, so the cell does not equal the first
flagged row's `old_value` — the claim fails as stated over "every ledger". -/
theorem revert_counterexample :
    revert_overwrites
        [{ row_index := 0, column := "c", old_value := "A", new_value := "x",
           reject := "1" },
         { row_index := 0, column := "c", old_value := "B", new_value := "y",
           reject := "1" }]
        [[("c", "z")]] =
      RevertResult.written [[("c", "B")]] ∧ ("B" : String) ≠ "A" := by
  exact ⟨by decide, by decide⟩

/-- C5 amended: the Revert Tool is a no-op (message, no write) when no row
is flagged; otherwise, provided the flagged rows target pairwise distinct
`(row_index, column)` cells that all exist in the table, it writes a table
in which every flagged row's cell equals that row's `old_value` exactly,
regardless of the cell's value beforehand.  (With duplicated flagged
positions the last flagged row in ledger order wins — see the
counterexample.) -/
theorem revert_amended (summary : List SummaryRow) (table : List TRow)
    (hnd : ((summary.filter fun r => r.reject = "1").map
        fun r => (r.row_index, r.column)).Nodup)
    (hin : ∀ r ∈ summary.filter fun r => r.reject = "1",
        (cellGet table r.row_index r.column).isSome = true) :
    ((summary.filter fun r => r.reject = "1") = [] →
        revert_overwrites summary table = .noFlagged) ∧
    (List.foldlM applyRevert table
        (summary.filter fun r => r.reject = "1")).isSome = true ∧
    (∀ t', List.foldlM applyRevert table
          (summary.filter fun r => r.reject = "1") = some t' →
        (summary.filter fun r => r.reject = "1") ≠ [] →
        revert_overwrites summary table = .written t' ∧
        ∀ r ∈ summary.filter fun r => r.reject = "1",
          cellGet t' r.row_index r.column = some r.old_value) := by
  refine ⟨?_, revert_foldlM_isSome _ table hin, ?_⟩
  · intro hemp
    unfold revert_overwrites
    dsimp only
    rw [hemp]
    rfl
  · intro t' hf hne
    constructor
    · unfold revert_overwrites
      dsimp only
      have hne2 : ¬((summary.filter fun r => r.reject = "1").isEmpty = true) :=
        fun habs => hne (List.isEmpty_iff.mp habs)
      rw [if_neg hne2, hf]
    · exact revert_foldlM_lastwins _ hnd table t' hf

/-- Witness for C5 (amended): the spec's own example — a flagged row
`(row_index=5, column="birthplace", old_value="Paris, France")` restores
that exact value. -/
theorem revert_amended_witness :
    revert_overwrites
        [{ row_index := 5, column := "birthplace",
           old_value := "Paris, France", new_value := "Lyon, France",
           reject := "1" }]
        [[], [], [], [], [], [("birthplace", "XXX")]] =
      RevertResult.written [[], [], [], [], [], [("birthplace", "Paris, France")]] ∧
    cellGet [[], [], [], [], [], [("birthplace", "Paris, France")]] 5 "birthplace" =
      some "Paris, France" := by
  have h := revert_amended
    [{ row_index := 5, column := "birthplace",
       old_value := "Paris, France", new_value := "Lyon, France",
       reject := "1" }]
    [[], [], [], [], [], [("birthplace", "XXX")]]
    (by decide) (by decide)
  have h2 := h.2.2 [[], [], [], [], [], [("birthplace", "Paris, France")]]
    (by decide) (by decide)
  exact ⟨h2.1,
    h2.2 { row_index := 5, column := "birthplace",
           old_value := "Paris, France", new_value := "Lyon, France",
           reject := "1" } (by decide)⟩

/-- C10: Revert Tool frame property: whenever the tool writes an output
table, that table has the same number of rows and every cell whose
`(row_index, column)` position is not targeted by some flagged ledger row
is preserved exactly (the table is handled entirely as strings). -/
theorem revert_frame (summary : List SummaryRow) (table t' : List TRow)
    (h : revert_overwrites summary table = .written t') :
    t'.length = table.length ∧
    ∀ i c, (∀ r ∈ summary.filter fun r => r.reject = "1",
        ¬(r.row_index = i ∧ r.column = c)) →
      cellGet t' i c = cellGet table i c := by
  unfold revert_overwrites at h
  dsimp only at h
  by_cases hemp : (summary.filter fun r => r.reject = "1").isEmpty = true
  · rw [if_pos hemp] at h
    cases h
  · rw [if_neg hemp] at h
    cases hf : List.foldlM applyRevert table (summary.filter fun r => r.reject = "1") with
    | none =>
      rw [hf] at h
      cases h
    | some t0 =>
      rw [hf] at h
      have ht : t0 = t' := by injection h
      subst ht
      obtain ⟨hlen, hframe, -⟩ := revert_foldlM_frame _ table t0 hf
      exact ⟨hlen, hframe⟩

/-- Witness for C10: reverting `(0, "b")` preserves the neighbouring cell
`(0, "a")` character for character. -/
theorem revert_frame_witness :
    cellGet [[("a", "1"), ("b", "9")]] 0 "a" =
      cellGet [[("a", "1"), ("b", "2")]] 0 "a" := by
  exact (revert_frame
      [{ row_index := 0, column := "b", old_value := "9", new_value := "2",
         reject := "1" }]
      [[("a", "1"), ("b", "2")]]
      [[("a", "1"), ("b", "9")]]
      (by decide)).2 0 "a" (by decide)

end CenterCourt
